import Mathlib

/-!
Shallow embedding of `src/wireframe.py` (Pygame3D).

Coordinates are modelled as rationals (the Python code uses machine
floats; all properties proved here are exact identities that hold over
any ordered field, so `ℚ` is adequate and keeps everything computable).
The cosine and sine computed by `np.cos` / `np.sin` in the rotation
methods are modelled as two arbitrary rational parameters `c` and `s`:
every rotation property verified below holds for all values of `c, s`,
so nothing about the trigonometric functions themselves is assumed.

Node rows are right-multiplied by 4x4 matrices (row-vector convention),
exactly as `np.dot(self.nodes, M)` does.
-/

/-- A homogeneous coordinate row `(x, y, z, w)`; one row of `self.nodes`. -/
structure Vec4 where
  x : ℚ
  y : ℚ
  z : ℚ
  w : ℚ
deriving DecidableEq, Repr

/-- A 4x4 matrix given by its four rows, as the `np.array([[...]])`
literals in the source build it. -/
structure Mat4 where
  r0 : Vec4
  r1 : Vec4
  r2 : Vec4
  r3 : Vec4
deriving DecidableEq, Repr

/-- Row-vector times matrix: one row of `np.dot(self.nodes, M)`. -/
def mulVecMat (v : Vec4) (m : Mat4) : Vec4 :=
  { x := v.x * m.r0.x + v.y * m.r1.x + v.z * m.r2.x + v.w * m.r3.x
    y := v.x * m.r0.y + v.y * m.r1.y + v.z * m.r2.y + v.w * m.r3.y
    z := v.x * m.r0.z + v.y * m.r1.z + v.z * m.r2.z + v.w * m.r3.z
    w := v.x * m.r0.w + v.y * m.r1.w + v.z * m.r2.w + v.w * m.r3.w }

/-- The state of class `Wireframe`: the `nodes` array (one `Vec4` per
row), the `edges` list of index pairs, the `faces` list of index loops. -/
structure Wireframe where
  nodes : List Vec4
  edges : List (Nat × Nat)
  faces : List (List Nat)
deriving DecidableEq, Repr

namespace Wireframe

/-- `Wireframe.__init__`: empty node array, empty edge and face lists. -/
def init : Wireframe := { nodes := [], edges := [], faces := [] }

/-- `addNodes`: append a 1 to each 3-tuple and stack onto `self.nodes`. -/
def addNodes (wf : Wireframe) (node_array : List (ℚ × ℚ × ℚ)) : Wireframe :=
  { wf with nodes := wf.nodes ++ node_array.map (fun p => ⟨p.1, p.2.1, p.2.2, 1⟩) }

/-- `addEdges`: `self.edges += [edge for edge in edge_list if edge not in
self.edges]` — the comprehension is evaluated against the edge list as it
stood at the start of the call, and membership is ordered-tuple equality. -/
def addEdges (wf : Wireframe) (edge_list : List (Nat × Nat)) : Wireframe :=
  { wf with edges := wf.edges ++ edge_list.filter (fun e => !wf.edges.contains e) }

/-- The boundary pairs `(node_list[n-1], node_list[n])` for `n` in
`range(len(node_list))`; Python index `-1` wraps to the last element,
modelled as `(n + len - 1) % len`. -/
def faceEdges (node_list : List Nat) : List (Nat × Nat) :=
  (List.range node_list.length).map
    (fun n => (node_list.getD ((n + node_list.length - 1) % node_list.length) 0,
               node_list.getD n 0))

/-- The body of the `for node_list in face_list` loop in `addFaces`:
if every index is `< len(self.nodes)` the loop is appended to `faces`
and its boundary pairs go through `addEdges`; otherwise nothing happens. -/
def addFacesStep (wf : Wireframe) (node_list : List Nat) : Wireframe :=
  if node_list.all (fun node => node < wf.nodes.length) then
    addEdges { wf with faces := wf.faces ++ [node_list] } (faceEdges node_list)
  else
    wf

/-- `addFaces`: process each loop of `face_list` in order. -/
def addFaces (wf : Wireframe) (face_list : List (List Nat)) : Wireframe :=
  face_list.foldl addFacesStep wf

/-- `transform`: `self.nodes = np.dot(self.nodes, transformation_matrix)`. -/
def transform (wf : Wireframe) (transformation_matrix : Mat4) : Wireframe :=
  { wf with nodes := wf.nodes.map (fun v => mulVecMat v transformation_matrix) }

/-- The matrix literal built by `translate`. -/
def translateMat (dx dy dz : ℚ) : Mat4 :=
  ⟨⟨1, 0, 0, 0⟩, ⟨0, 1, 0, 0⟩, ⟨0, 0, 1, 0⟩, ⟨dx, dy, dz, 1⟩⟩

/-- `translate(dx, dy, dz)`. -/
def translate (wf : Wireframe) (dx dy dz : ℚ) : Wireframe :=
  transform wf (translateMat dx dy dz)

/-- The matrix literal built by `scale`. -/
def scaleMat (s cx cy cz : ℚ) : Mat4 :=
  ⟨⟨s, 0, 0, 0⟩, ⟨0, s, 0, 0⟩, ⟨0, 0, s, 0⟩,
   ⟨cx * (1 - s), cy * (1 - s), cz * (1 - s), 1⟩⟩

/-- `scale(s, cx, cy, cz)`. -/
def scale (wf : Wireframe) (s cx cy cz : ℚ) : Wireframe :=
  transform wf (scaleMat s cx cy cz)

/-- The matrix literal built by `rotateX`, with `c = cos(radians)` and
`s = sin(radians)` abstracted as parameters. -/
def rotateXMat (y z c s : ℚ) : Mat4 :=
  ⟨⟨1, 0, 0, 0⟩, ⟨0, c, -s, 0⟩, ⟨0, s, c, 0⟩,
   ⟨0, -y * c - z * s + y, y * s - z * c + z, 1⟩⟩

/-- `rotateX(y, z, radians)` with the cosine and sine as parameters. -/
def rotateX (wf : Wireframe) (y z c s : ℚ) : Wireframe :=
  transform wf (rotateXMat y z c s)

/-- The matrix literal built by `rotateY`. -/
def rotateYMat (x z c s : ℚ) : Mat4 :=
  ⟨⟨c, 0, s, 0⟩, ⟨0, 1, 0, 0⟩, ⟨-s, 0, c, 0⟩,
   ⟨z * s - x * c + x, 0, -z * c - x * s + z, 1⟩⟩

/-- `rotateY(x, z, radians)` with the cosine and sine as parameters. -/
def rotateY (wf : Wireframe) (x z c s : ℚ) : Wireframe :=
  transform wf (rotateYMat x z c s)

/-- The matrix literal built by `rotateZ`. -/
def rotateZMat (x y c s : ℚ) : Mat4 :=
  ⟨⟨c, -s, 0, 0⟩, ⟨s, c, 0, 0⟩, ⟨0, 0, 1, 0⟩,
   ⟨-x * c - y * s + x, x * s - c * y + y, 0, 1⟩⟩

/-- `rotateZ(x, y, radians)` with the cosine and sine as parameters. -/
def rotateZ (wf : Wireframe) (x y c s : ℚ) : Wireframe :=
  transform wf (rotateZMat x y c s)

end Wireframe

/-- The Wireframe states reachable from a fresh `Wireframe()` through
the public append operations `addNodes`, `addEdges`, `addFaces`. -/
inductive Reachable : Wireframe → Prop where
  | init : Reachable Wireframe.init
  | addNodes {wf : Wireframe} (pts : List (ℚ × ℚ × ℚ)) :
      Reachable wf → Reachable (wf.addNodes pts)
  | addEdges {wf : Wireframe} (es : List (Nat × Nat)) :
      Reachable wf → Reachable (wf.addEdges es)
  | addFaces {wf : Wireframe} (fl : List (List Nat)) :
      Reachable wf → Reachable (wf.addFaces fl)

/-- Every index stored in every face is a valid index into `nodes`. -/
def FacesInBounds (wf : Wireframe) : Prop :=
  ∀ f ∈ wf.faces, ∀ n ∈ f, n < wf.nodes.length

/-- The 4th (homogeneous) component of every stored node equals 1. -/
def HomOne (wf : Wireframe) : Prop :=
  ∀ v ∈ wf.nodes, v.w = 1

/-- The last column of a 4x4 matrix is `(0, 0, 0, 1)`; true of every
matrix the transform engine itself builds. -/
def LastColUnit (m : Mat4) : Prop :=
  m.r0.w = 0 ∧ m.r1.w = 0 ∧ m.r2.w = 0 ∧ m.r3.w = 1

/-- One call of the transform interface of `Wireframe` (cosine and sine
of a rotation angle appear as the parameters `c`, `s`). -/
inductive TOp where
  | tmat (m : Mat4)
  | translate (dx dy dz : ℚ)
  | scale (s cx cy cz : ℚ)
  | rotX (y z c s : ℚ)
  | rotY (x z c s : ℚ)
  | rotZ (x y c s : ℚ)

/-- Apply one transform call to a wireframe. -/
def applyTOp (wf : Wireframe) : TOp → Wireframe
  | .tmat m => wf.transform m
  | .translate dx dy dz => wf.translate dx dy dz
  | .scale s cx cy cz => wf.scale s cx cy cz
  | .rotX y z c s => wf.rotateX y z c s
  | .rotY x z c s => wf.rotateY x z c s
  | .rotZ x y c s => wf.rotateZ x y c s

/-- Apply a whole sequence of transform calls, first to last. -/
def applyTOps (wf : Wireframe) (l : List TOp) : Wireframe :=
  l.foldl applyTOp wf

/-- Minimum of a list of rationals; `np.min` of a nonempty axis slice.
The Python reduction errors on an empty array; here the empty case
returns 0 and every theorem that uses it assumes nonemptiness. -/
def qmin : List ℚ → ℚ
  | [] => 0
  | a :: rest => rest.foldl min a

/-- Maximum of a list of rationals (see `qmin`). -/
def qmax : List ℚ → ℚ
  | [] => 0
  | a :: rest => rest.foldl max a

namespace Wireframe

/-- `findCentre`: `0.5 * (min + max)` per axis over the first three
columns of `self.nodes`. -/
def findCentre (wf : Wireframe) : ℚ × ℚ × ℚ :=
  ((1 / 2) * (qmin (wf.nodes.map Vec4.x) + qmax (wf.nodes.map Vec4.x)),
   (1 / 2) * (qmin (wf.nodes.map Vec4.y) + qmax (wf.nodes.map Vec4.y)),
   (1 / 2) * (qmin (wf.nodes.map Vec4.z) + qmax (wf.nodes.map Vec4.z)))

end Wireframe

/-- The state of class `WireframeGroup`: the member wireframes, listed
in the dictionary's iteration order (names are irrelevant to the
properties verified here). -/
structure WireframeGroup where
  wireframes : List Wireframe
deriving Repr

namespace WireframeGroup

/-- `WireframeGroup.findCentre`: per-axis minimum over every member's
per-axis node minimum, likewise for maxima, then the midpoint. -/
def findCentre (g : WireframeGroup) : ℚ × ℚ × ℚ :=
  ((1 / 2) * (qmin (g.wireframes.map (fun wf => qmin (wf.nodes.map Vec4.x))) +
              qmax (g.wireframes.map (fun wf => qmax (wf.nodes.map Vec4.x)))),
   (1 / 2) * (qmin (g.wireframes.map (fun wf => qmin (wf.nodes.map Vec4.y))) +
              qmax (g.wireframes.map (fun wf => qmax (wf.nodes.map Vec4.y)))),
   (1 / 2) * (qmin (g.wireframes.map (fun wf => qmin (wf.nodes.map Vec4.z))) +
              qmax (g.wireframes.map (fun wf => qmax (wf.nodes.map Vec4.z)))))

/-- `WireframeGroup.rotateX(radians, centre=None)`: when `centre` is
omitted the group centroid supplies `(cy, cz)`; every member's
`rotateX` is then called with that pivot. `c`, `s` stand for the cosine
and sine of `radians`. -/
def rotateX (g : WireframeGroup) (c s : ℚ) (centre : Option (ℚ × ℚ)) : WireframeGroup :=
  match centre with
  | none =>
      let ctr := g.findCentre
      ⟨g.wireframes.map (fun wf => wf.rotateX ctr.2.1 ctr.2.2 c s)⟩
  | some (cy, cz) =>
      ⟨g.wireframes.map (fun wf => wf.rotateX cy cz c s)⟩

/-- `WireframeGroup.rotateY(radians, centre=None)` (see `rotateX`). -/
def rotateY (g : WireframeGroup) (c s : ℚ) (centre : Option (ℚ × ℚ)) : WireframeGroup :=
  match centre with
  | none =>
      let ctr := g.findCentre
      ⟨g.wireframes.map (fun wf => wf.rotateY ctr.1 ctr.2.2 c s)⟩
  | some (cx, cz) =>
      ⟨g.wireframes.map (fun wf => wf.rotateY cx cz c s)⟩

/-- `WireframeGroup.rotateZ(radians, centre=None)` (see `rotateX`). -/
def rotateZ (g : WireframeGroup) (c s : ℚ) (centre : Option (ℚ × ℚ)) : WireframeGroup :=
  match centre with
  | none =>
      let ctr := g.findCentre
      ⟨g.wireframes.map (fun wf => wf.rotateZ ctr.1 ctr.2.1 c s)⟩
  | some (cx, cy) =>
      ⟨g.wireframes.map (fun wf => wf.rotateZ cx cy c s)⟩

end WireframeGroup

/-- The four-node unit square buffer of the spec's face scenario. -/
def square4 : Wireframe :=
  Wireframe.addNodes Wireframe.init [(0, 0, 0), (1, 0, 0), (1, 1, 0), (0, 1, 0)]

/-- A two-member group spanning `(0,0,0)-(1,1,1)` and `(2,2,2)-(3,3,3)`. -/
def gdemo2 : WireframeGroup :=
  ⟨[Wireframe.addNodes Wireframe.init [(0, 0, 0), (1, 1, 1)],
    Wireframe.addNodes Wireframe.init [(2, 2, 2), (3, 3, 3)]]⟩

/-! ## Helper lemmas -/

theorem addFacesStep_nodes (wf : Wireframe) (nl : List Nat) :
    (Wireframe.addFacesStep wf nl).nodes = wf.nodes := by
  unfold Wireframe.addFacesStep
  split <;> rfl

theorem addFaces_foldl_nodes (fl : List (List Nat)) :
    ∀ wf : Wireframe, (List.foldl Wireframe.addFacesStep wf fl).nodes = wf.nodes := by
  induction fl with
  | nil => intro wf; rfl
  | cons nl rest ih =>
      intro wf
      rw [List.foldl_cons, ih (Wireframe.addFacesStep wf nl), addFacesStep_nodes]

theorem addFaces_nodes (wf : Wireframe) (fl : List (List Nat)) :
    (wf.addFaces fl).nodes = wf.nodes :=
  addFaces_foldl_nodes fl wf

theorem addFacesStep_edges (wf : Wireframe) (nl : List Nat) :
    ∃ t, (Wireframe.addFacesStep wf nl).edges = wf.edges ++ t := by
  unfold Wireframe.addFacesStep
  split
  · exact ⟨_, rfl⟩
  · exact ⟨[], (List.append_nil _).symm⟩

theorem addFacesStep_faces (wf : Wireframe) (nl : List Nat) :
    ∃ t, (Wireframe.addFacesStep wf nl).faces = wf.faces ++ t := by
  unfold Wireframe.addFacesStep
  split
  · exact ⟨[nl], rfl⟩
  · exact ⟨[], (List.append_nil _).symm⟩

theorem addFaces_foldl_edges (fl : List (List Nat)) :
    ∀ wf : Wireframe, ∃ t, (List.foldl Wireframe.addFacesStep wf fl).edges = wf.edges ++ t := by
  induction fl with
  | nil => intro wf; exact ⟨[], (List.append_nil _).symm⟩
  | cons nl rest ih =>
      intro wf
      obtain ⟨t1, h1⟩ := addFacesStep_edges wf nl
      obtain ⟨t2, h2⟩ := ih (Wireframe.addFacesStep wf nl)
      exact ⟨t1 ++ t2, by rw [List.foldl_cons, h2, h1, List.append_assoc]⟩

theorem addFaces_foldl_faces (fl : List (List Nat)) :
    ∀ wf : Wireframe, ∃ t, (List.foldl Wireframe.addFacesStep wf fl).faces = wf.faces ++ t := by
  induction fl with
  | nil => intro wf; exact ⟨[], (List.append_nil _).symm⟩
  | cons nl rest ih =>
      intro wf
      obtain ⟨t1, h1⟩ := addFacesStep_faces wf nl
      obtain ⟨t2, h2⟩ := ih (Wireframe.addFacesStep wf nl)
      exact ⟨t1 ++ t2, by rw [List.foldl_cons, h2, h1, List.append_assoc]⟩

theorem addFaces_drop_bad (L : Nat) (fl : List (List Nat)) :
    ∀ wf : Wireframe, wf.nodes.length = L →
      List.foldl Wireframe.addFacesStep wf (fl.filter fun nl => nl.all fun n => decide (n < L)) =
        List.foldl Wireframe.addFacesStep wf fl := by
  induction fl with
  | nil => intro wf _; rfl
  | cons nl rest ih =>
      intro wf hwf
      by_cases h : nl.all (fun n => decide (n < L)) = true
      · rw [List.filter_cons, if_pos h, List.foldl_cons, List.foldl_cons]
        exact ih (Wireframe.addFacesStep wf nl) (by rw [addFacesStep_nodes, hwf])
      · rw [List.filter_cons, if_neg h, List.foldl_cons]
        have hstep : Wireframe.addFacesStep wf nl = wf := by
          unfold Wireframe.addFacesStep
          rw [if_neg]
          rw [hwf]
          exact h
        rw [hstep]
        exact ih wf hwf

/-! ## Claim theorems: append operations -/

/-- C1 (counterexample): on a wireframe whose edge list already holds
`(0, 1)`, `addEdges [(1, 0)]` appends the reversed pair anyway — the
edge count grows from 1 to 2 and the list now holds two entries that
are equal as unordered pairs, refuting the claim that deduplication is
orientation-insensitive. -/
theorem c1_counterexample :
    (Wireframe.addEdges ⟨[], [(0, 1)], []⟩ [(1, 0)]).edges = [(0, 1), (1, 0)] := by
  decide

/-- C1 (amended): `addEdges` appends a candidate pair only if no pair
equal to it as an ordered pair (same orientation) is already in the edge
list at the start of the call; in particular adding pairs all of which
are already present in the same orientation leaves the wireframe
unchanged. -/
theorem c1_addEdges_ordered_dedup (wf : Wireframe) (es : List (Nat × Nat))
    (h : ∀ e ∈ es, e ∈ wf.edges) :
    wf.addEdges es = wf := by
  have hfil : es.filter (fun e => !wf.edges.contains e) = [] := by
    apply List.filter_eq_nil_iff.mpr
    intro e he
    simp [h e he]
  unfold Wireframe.addEdges
  rw [hfil, List.append_nil]

/-- C1 (witness): instantiates the amended theorem on a wireframe whose
edge list is `[(0, 1)]` and the same-orientation candidate `(0, 1)`. -/
theorem c1_addEdges_ordered_dedup_witness :
    (∀ e ∈ ([(0, 1)] : List (Nat × Nat)), e ∈ (Wireframe.mk [] [(0, 1)] []).edges) ∧
    Wireframe.addEdges ⟨[], [(0, 1)], []⟩ [(0, 1)] = ⟨[], [(0, 1)], []⟩ :=
  ⟨by decide, c1_addEdges_ordered_dedup ⟨[], [(0, 1)], []⟩ [(0, 1)] (by decide)⟩

/-- C2 (counterexample): on a one-node wireframe, `addFaces [[1], [0]]`
has an argument containing the out-of-range index 1, yet the face count
changes (the valid loop `[0]` is still inserted), refuting the claim
that any such call leaves the counts unchanged from before the call. -/
theorem c2_counterexample :
    (Wireframe.addFaces ⟨[⟨0, 0, 0, 1⟩], [], []⟩ [[1], [0]]).faces.length ≠
      (Wireframe.mk [⟨0, 0, 0, 1⟩] [] []).faces.length := by
  decide

/-- C2 (amended): `addFaces` never changes the node buffer; each loop
that contains an index `≥` the node count is dropped whole — filtering
such loops out of the argument does not change the result — and a call
every one of whose loops contains an out-of-range index leaves the
wireframe (hence all three counts) unchanged. -/
theorem c2_addFaces_atomic_per_loop :
    (∀ (wf : Wireframe) (fl : List (List Nat)),
        (wf.addFaces fl).nodes = wf.nodes ∧
        wf.addFaces (fl.filter fun nl => nl.all fun n => decide (n < wf.nodes.length)) =
          wf.addFaces fl) ∧
    (∀ (wf : Wireframe) (fl : List (List Nat)),
        (∀ nl ∈ fl, ¬(nl.all fun n => decide (n < wf.nodes.length)) = true) →
        wf.addFaces fl = wf) := by
  constructor
  · intro wf fl
    exact ⟨addFaces_nodes wf fl, addFaces_drop_bad wf.nodes.length fl wf rfl⟩
  · intro wf fl h
    have hfil : fl.filter (fun nl => nl.all fun n => decide (n < wf.nodes.length)) = [] :=
      List.filter_eq_nil_iff.mpr h
    have h2 := addFaces_drop_bad wf.nodes.length fl wf rfl
    rw [hfil] at h2
    exact h2.symm.trans rfl

/-- C2 (witness): instantiates the amended theorem on a one-node
wireframe and the argument `[[1], [2]]`, both loops out of range. -/
theorem c2_addFaces_atomic_per_loop_witness :
    (∀ nl ∈ [[1], [2]],
        ¬(nl.all fun n => decide (n < (Wireframe.mk [⟨0, 0, 0, 1⟩] [] []).nodes.length)) = true) ∧
    Wireframe.addFaces ⟨[⟨0, 0, 0, 1⟩], [], []⟩ [[1], [2]] = ⟨[⟨0, 0, 0, 1⟩], [], []⟩ :=
  ⟨by decide, c2_addFaces_atomic_per_loop.2 ⟨[⟨0, 0, 0, 1⟩], [], []⟩ [[1], [2]] (by decide)⟩

/-- C9: on the four-node unit-square buffer with empty edge and face
lists, `addFaces [[0, 1, 2, 3]]` appends exactly the one face
`[0, 1, 2, 3]` and derives, through `addEdges`, exactly the four edges
`(3,0), (0,1), (1,2), (2,3)` in that order (wraparound pair first). -/
theorem c9_square_face_scenario :
    (square4.addFaces [[0, 1, 2, 3]]).faces = [[0, 1, 2, 3]] ∧
    (square4.addFaces [[0, 1, 2, 3]]).edges = [(3, 0), (0, 1), (1, 2), (2, 3)] := by
  constructor <;> rfl

/-- C10: the three append operations only ever append: `addNodes` puts
the new homogeneous rows after the existing ones and leaves edges and
faces untouched; `addEdges` leaves nodes and faces untouched and only
appends to the edge list; `addFaces` leaves nodes untouched and only
appends to the edge and face lists. Pre-existing entries keep their
values and positions in every case. -/
theorem c10_append_only (wf : Wireframe) (pts : List (ℚ × ℚ × ℚ))
    (es : List (Nat × Nat)) (fl : List (List Nat)) :
    ((wf.addNodes pts).nodes = wf.nodes ++ pts.map (fun p => ⟨p.1, p.2.1, p.2.2, 1⟩) ∧
      (wf.addNodes pts).edges = wf.edges ∧
      (wf.addNodes pts).faces = wf.faces) ∧
    ((wf.addEdges es).nodes = wf.nodes ∧
      (∃ t, (wf.addEdges es).edges = wf.edges ++ t) ∧
      (wf.addEdges es).faces = wf.faces) ∧
    ((wf.addFaces fl).nodes = wf.nodes ∧
      (∃ t, (wf.addFaces fl).edges = wf.edges ++ t) ∧
      (∃ t, (wf.addFaces fl).faces = wf.faces ++ t)) :=
  ⟨⟨rfl, rfl, rfl⟩,
   ⟨rfl, ⟨_, rfl⟩, rfl⟩,
   ⟨addFaces_nodes wf fl, addFaces_foldl_edges fl wf, addFaces_foldl_faces fl wf⟩⟩

/-! ## Claim theorems: invariants of the append interface -/

theorem addFacesStep_inBounds {wf : Wireframe} (h : FacesInBounds wf) (nl : List Nat) :
    FacesInBounds (Wireframe.addFacesStep wf nl) := by
  unfold Wireframe.addFacesStep
  split
  case isTrue hc =>
    intro f hf n hn
    simp only [Wireframe.addEdges] at hf ⊢
    rcases List.mem_append.mp hf with hf | hf
    · exact h f hf n hn
    · have hfn : f = nl := by simpa using hf
      subst hfn
      exact of_decide_eq_true (List.all_eq_true.mp hc n hn)
  case isFalse => exact h

theorem addFaces_foldl_inBounds (fl : List (List Nat)) :
    ∀ wf : Wireframe, FacesInBounds wf →
      FacesInBounds (List.foldl Wireframe.addFacesStep wf fl) := by
  induction fl with
  | nil => intro wf h; exact h
  | cons nl rest ih =>
      intro wf h
      rw [List.foldl_cons]
      exact ih _ (addFacesStep_inBounds h nl)

/-- C5: in every wireframe state reachable through the public append
operations, every index stored in every face is a valid index into the
node sequence — `addFaces` accepts a loop only when each index refers
to an existing node at insertion time. -/
theorem c5_reachable_faces_in_bounds (wf : Wireframe) (h : Reachable wf) :
    FacesInBounds wf := by
  induction h with
  | init =>
      intro f hf
      simp [Wireframe.init] at hf
  | addNodes pts _ ih =>
      intro f hf n hn
      have hlt := ih f hf n hn
      calc n < _ := hlt
        _ ≤ ((Wireframe.addNodes _ pts).nodes).length := by
            simp [Wireframe.addNodes]
  | addEdges es _ ih =>
      exact fun f hf n hn => ih f hf n hn
  | addFaces fl _ ih =>
      exact addFaces_foldl_inBounds fl _ ih

/-- C5 (witness): a concrete reachable state — two nodes then the face
`[0, 1]` — satisfies the face-index invariant. -/
theorem c5_reachable_faces_in_bounds_witness :
    Reachable (Wireframe.addFaces (Wireframe.addNodes Wireframe.init [(0, 0, 0), (1, 0, 0)]) [[0, 1]]) ∧
    FacesInBounds
      (Wireframe.addFaces (Wireframe.addNodes Wireframe.init [(0, 0, 0), (1, 0, 0)]) [[0, 1]]) :=
  ⟨Reachable.addFaces _ (Reachable.addNodes _ Reachable.init),
   c5_reachable_faces_in_bounds _ (Reachable.addFaces _ (Reachable.addNodes _ Reachable.init))⟩

/-! ## Claim theorems: homogeneous component -/

/-- C6 (counterexample): generic `transform` takes its matrix from the
caller; applying it with the zero matrix to a node `(0, 0, 0, 1)` sets
the 4th component to 0, so the invariant does not survive every
`transform` call as the claim states. -/
theorem c6_counterexample :
    ¬HomOne (Wireframe.transform ⟨[⟨0, 0, 0, 1⟩], [], []⟩
      ⟨⟨0, 0, 0, 0⟩, ⟨0, 0, 0, 0⟩, ⟨0, 0, 0, 0⟩, ⟨0, 0, 0, 0⟩⟩) := by
  unfold HomOne Wireframe.transform
  simp only [List.map_cons, List.map_nil, List.mem_singleton, forall_eq]
  norm_num [mulVecMat]

theorem mulVecMat_w_one {m : Mat4} (hm : LastColUnit m) {v : Vec4} (hv : v.w = 1) :
    (mulVecMat v m).w = 1 := by
  obtain ⟨h0, h1, h2, h3⟩ := hm
  simp [mulVecMat, h0, h1, h2, h3, hv]

theorem transform_homOne {wf : Wireframe} {m : Mat4} (h : HomOne wf) (hm : LastColUnit m) :
    HomOne (wf.transform m) := by
  intro v hv
  obtain ⟨u, hu, rfl⟩ := List.mem_map.mp hv
  exact mulVecMat_w_one hm (h u hu)

/-- C6 (amended): the homogeneous component of every stored node is
exactly 1 after `addNodes` and after `translate`, `scale`, `rotateX`,
`rotateY`, `rotateZ` (whose engine-built matrices all have last column
`(0, 0, 0, 1)`), and after `transform` with any matrix whose last
column is `(0, 0, 0, 1)`; generic `transform` with an arbitrary caller
matrix is excluded. -/
theorem c6_hom_component_one :
    HomOne Wireframe.init ∧
    ∀ wf : Wireframe, HomOne wf →
      (∀ pts, HomOne (wf.addNodes pts)) ∧
      (∀ m, LastColUnit m → HomOne (wf.transform m)) ∧
      (∀ dx dy dz, HomOne (wf.translate dx dy dz)) ∧
      (∀ s cx cy cz, HomOne (wf.scale s cx cy cz)) ∧
      (∀ y z c s, HomOne (wf.rotateX y z c s)) ∧
      (∀ x z c s, HomOne (wf.rotateY x z c s)) ∧
      (∀ x y c s, HomOne (wf.rotateZ x y c s)) := by
  constructor
  · intro v hv
    simp [Wireframe.init] at hv
  · intro wf h
    refine ⟨?_, fun m hm => transform_homOne h hm, ?_, ?_, ?_, ?_, ?_⟩
    · intro pts v hv
      rcases List.mem_append.mp hv with hv | hv
      · exact h v hv
      · obtain ⟨p, _, rfl⟩ := List.mem_map.mp hv
        rfl
    · exact fun dx dy dz => transform_homOne h ⟨rfl, rfl, rfl, rfl⟩
    · exact fun s cx cy cz => transform_homOne h ⟨rfl, rfl, rfl, rfl⟩
    · exact fun y z c s => transform_homOne h ⟨rfl, rfl, rfl, rfl⟩
    · exact fun x z c s => transform_homOne h ⟨rfl, rfl, rfl, rfl⟩
    · exact fun x y c s => transform_homOne h ⟨rfl, rfl, rfl, rfl⟩

/-- C6 (witness): instantiates the amended theorem on a one-node
wireframe and a translation. -/
theorem c6_hom_component_one_witness :
    HomOne (Wireframe.mk [⟨1, 2, 3, 1⟩] [] []) ∧
    HomOne ((Wireframe.mk [⟨1, 2, 3, 1⟩] [] []).translate 5 6 7) := by
  have hyp : ∀ v ∈ (Wireframe.mk [⟨1, 2, 3, 1⟩] [] []).nodes, v.w = 1 := by decide
  exact ⟨hyp, (c6_hom_component_one.2 _ hyp).2.2.1 5 6 7⟩

/-! ## Claim theorems: transforms and geometry structure -/

theorem applyTOp_shape (wf : Wireframe) (op : TOp) :
    (∃ F : Vec4 → Vec4, (applyTOp wf op).nodes = wf.nodes.map F) ∧
    (applyTOp wf op).edges = wf.edges ∧ (applyTOp wf op).faces = wf.faces := by
  cases op <;> exact ⟨⟨_, rfl⟩, rfl, rfl⟩

theorem applyTOps_foldl_shape (l : List TOp) :
    ∀ wf : Wireframe,
      (∃ F : Vec4 → Vec4, (applyTOps wf l).nodes = wf.nodes.map F) ∧
      (applyTOps wf l).edges = wf.edges ∧ (applyTOps wf l).faces = wf.faces := by
  induction l with
  | nil => exact fun wf => ⟨⟨id, (List.map_id _).symm⟩, rfl, rfl⟩
  | cons op rest ih =>
      intro wf
      obtain ⟨⟨F1, h1⟩, e1, f1⟩ := applyTOp_shape wf op
      obtain ⟨⟨F2, h2⟩, e2, f2⟩ := ih (applyTOp wf op)
      refine ⟨⟨F2 ∘ F1, ?_⟩, e2.trans e1, f2.trans f1⟩
      show (applyTOps (applyTOp wf op) rest).nodes = _
      rw [h2, h1, List.map_map]

/-- C7: any sequence of transform calls (generic `transform` with any
4x4 matrix, `translate`, `scale`, `rotateX`, `rotateY`, `rotateZ`)
maps the node rows pointwise — preserving node count and order — and
leaves the edge and face lists completely unchanged. -/
theorem c7_transforms_preserve_structure (wf : Wireframe) (l : List TOp) :
    (applyTOps wf l).nodes.length = wf.nodes.length ∧
    (∃ F : Vec4 → Vec4, (applyTOps wf l).nodes = wf.nodes.map F) ∧
    (applyTOps wf l).edges = wf.edges ∧
    (applyTOps wf l).faces = wf.faces := by
  obtain ⟨⟨F, hF⟩, he, hf⟩ := applyTOps_foldl_shape l wf
  exact ⟨by rw [hF, List.length_map], ⟨F, hF⟩, he, hf⟩

/-- C8: `scale(s, cx, cy, cz)` — i.e. right-multiplication by the
matrix with diagonal `(s, s, s)` and bottom row
`(cx(1-s), cy(1-s), cz(1-s), 1)` — replaces each homogeneous node
`(x, y, z, 1)` by `pivot + s * (node - pivot)` per axis. -/
theorem c8_scale_about_pivot (wf : Wireframe) (s cx cy cz : ℚ) (h : HomOne wf) :
    (wf.scale s cx cy cz).nodes =
      wf.nodes.map (fun v =>
        ⟨cx + s * (v.x - cx), cy + s * (v.y - cy), cz + s * (v.z - cz), 1⟩) := by
  unfold Wireframe.scale Wireframe.transform
  apply List.map_congr_left
  intro v hv
  have hw := h v hv
  simp only [mulVecMat, Wireframe.scaleMat, hw, Vec4.mk.injEq]
  refine ⟨by ring, by ring, by ring, by ring⟩

/-- C8 (witness): `scale(2)` about the pivot `(0, 0, 0)` on the single
node `(1, 1, 1, 1)` yields `(2, 2, 2, 1)`. -/
theorem c8_scale_about_pivot_witness :
    HomOne (Wireframe.addNodes Wireframe.init [(1, 1, 1)]) ∧
    ((Wireframe.addNodes Wireframe.init [(1, 1, 1)]).scale 2 0 0 0).nodes =
      (Wireframe.addNodes Wireframe.init [(1, 1, 1)]).nodes.map (fun v =>
        ⟨0 + 2 * (v.x - 0), 0 + 2 * (v.y - 0), 0 + 2 * (v.z - 0), 1⟩) ∧
    ((Wireframe.addNodes Wireframe.init [(1, 1, 1)]).scale 2 0 0 0).nodes =
      [⟨2, 2, 2, 1⟩] := by
  have hyp : ∀ v ∈ (Wireframe.addNodes Wireframe.init [(1, 1, 1)]).nodes, v.w = 1 := by decide
  refine ⟨hyp, c8_scale_about_pivot _ 2 0 0 0 hyp, ?_⟩
  simp only [Wireframe.addNodes, Wireframe.init, Wireframe.scale, Wireframe.transform,
    List.nil_append, List.map_cons, List.map_nil, List.cons.injEq, and_true]
  simp only [mulVecMat, Wireframe.scaleMat, Vec4.mk.injEq]
  norm_num

/-! ## Min/max reduction lemmas -/

theorem foldl_min_out (l : List ℚ) : ∀ i j : ℚ, l.foldl min (min i j) = min i (l.foldl min j) := by
  induction l with
  | nil => intro i j; rfl
  | cons a t ih =>
      intro i j
      simp only [List.foldl_cons]
      rw [min_assoc, ih]

theorem foldl_max_out (l : List ℚ) : ∀ i j : ℚ, l.foldl max (max i j) = max i (l.foldl max j) := by
  induction l with
  | nil => intro i j; rfl
  | cons a t ih =>
      intro i j
      simp only [List.foldl_cons]
      rw [max_assoc, ih]

theorem qmin_cons (a : ℚ) (l : List ℚ) (hl : l ≠ []) : qmin (a :: l) = min a (qmin l) := by
  obtain ⟨b, t, rfl⟩ := List.exists_cons_of_ne_nil hl
  simp only [qmin, List.foldl_cons]
  exact foldl_min_out t a b

theorem qmax_cons (a : ℚ) (l : List ℚ) (hl : l ≠ []) : qmax (a :: l) = max a (qmax l) := by
  obtain ⟨b, t, rfl⟩ := List.exists_cons_of_ne_nil hl
  simp only [qmax, List.foldl_cons]
  exact foldl_max_out t a b

theorem qmin_append : ∀ (a b : List ℚ), a ≠ [] → b ≠ [] → qmin (a ++ b) = min (qmin a) (qmin b) := by
  intro a
  induction a with
  | nil => intro b h; exact absurd rfl h
  | cons x a' ih =>
      intro b _ hb
      by_cases ha' : a' = []
      · subst ha'
        rw [List.singleton_append, qmin_cons x b hb]
        rfl
      · rw [List.cons_append, qmin_cons x (a' ++ b) (List.append_ne_nil_of_left_ne_nil ha' b),
          qmin_cons x a' ha', ih b ha' hb, min_assoc]

theorem qmax_append : ∀ (a b : List ℚ), a ≠ [] → b ≠ [] → qmax (a ++ b) = max (qmax a) (qmax b) := by
  intro a
  induction a with
  | nil => intro b h; exact absurd rfl h
  | cons x a' ih =>
      intro b _ hb
      by_cases ha' : a' = []
      · subst ha'
        rw [List.singleton_append, qmax_cons x b hb]
        rfl
      · rw [List.cons_append, qmax_cons x (a' ++ b) (List.append_ne_nil_of_left_ne_nil ha' b),
          qmax_cons x a' ha', ih b ha' hb, max_assoc]

theorem qmin_flatten : ∀ ls : List (List ℚ), ls ≠ [] → (∀ l ∈ ls, l ≠ []) →
    qmin (ls.map qmin) = qmin ls.flatten := by
  intro ls
  induction ls with
  | nil => intro h; exact absurd rfl h
  | cons l rest ih =>
      intro _ hmem
      by_cases hr : rest = []
      · subst hr
        simp only [List.map_cons, List.map_nil, List.flatten_cons, List.flatten_nil,
          List.append_nil]
        rfl
      · have h1 : rest.map qmin ≠ [] := by simpa [List.map_eq_nil_iff] using hr
        have h2 : rest.flatten ≠ [] := by
          rw [List.flatten_ne_nil_iff]
          obtain ⟨b, L, rfl⟩ := List.exists_cons_of_ne_nil hr
          exact ⟨b, List.mem_cons_self b L, hmem b (by simp)⟩
        have hl : l ≠ [] := hmem l (by simp)
        rw [List.map_cons, qmin_cons _ _ h1, ih hr (fun x hx => hmem x (by simp [hx])),
          List.flatten_cons, qmin_append l rest.flatten hl h2]

theorem qmax_flatten : ∀ ls : List (List ℚ), ls ≠ [] → (∀ l ∈ ls, l ≠ []) →
    qmax (ls.map qmax) = qmax ls.flatten := by
  intro ls
  induction ls with
  | nil => intro h; exact absurd rfl h
  | cons l rest ih =>
      intro _ hmem
      by_cases hr : rest = []
      · subst hr
        simp only [List.map_cons, List.map_nil, List.flatten_cons, List.flatten_nil,
          List.append_nil]
        rfl
      · have h1 : rest.map qmax ≠ [] := by simpa [List.map_eq_nil_iff] using hr
        have h2 : rest.flatten ≠ [] := by
          rw [List.flatten_ne_nil_iff]
          obtain ⟨b, L, rfl⟩ := List.exists_cons_of_ne_nil hr
          exact ⟨b, List.mem_cons_self b L, hmem b (by simp)⟩
        have hl : l ≠ [] := hmem l (by simp)
        rw [List.map_cons, qmax_cons _ _ h1, ih hr (fun x hx => hmem x (by simp [hx])),
          List.flatten_cons, qmax_append l rest.flatten hl h2]

/-! ## Claim theorems: group centroid and group rotation -/

theorem group_axis_reduction (g : WireframeGroup) (f : Vec4 → ℚ)
    (hne : g.wireframes ≠ []) (hnodes : ∀ wf ∈ g.wireframes, wf.nodes ≠ []) :
    qmin (g.wireframes.map fun wf => qmin (wf.nodes.map f)) =
      qmin (((g.wireframes.map Wireframe.nodes).flatten).map f) ∧
    qmax (g.wireframes.map fun wf => qmax (wf.nodes.map f)) =
      qmax (((g.wireframes.map Wireframe.nodes).flatten).map f) := by
  have hls : (g.wireframes.map fun wf => wf.nodes.map f) ≠ [] := by
    simpa [List.map_eq_nil_iff] using hne
  have hmem : ∀ l ∈ g.wireframes.map (fun wf => wf.nodes.map f), l ≠ [] := by
    intro l hl
    obtain ⟨wf, hwf, rfl⟩ := List.mem_map.mp hl
    simpa [List.map_eq_nil_iff] using hnodes wf hwf
  constructor
  · calc qmin (g.wireframes.map fun wf => qmin (wf.nodes.map f))
        = qmin ((g.wireframes.map fun wf => wf.nodes.map f).map qmin) := by
          rw [List.map_map]; rfl
      _ = qmin ((g.wireframes.map fun wf => wf.nodes.map f).flatten) :=
          qmin_flatten _ hls hmem
      _ = qmin (((g.wireframes.map Wireframe.nodes).map (List.map f)).flatten) := by
          rw [List.map_map]; rfl
      _ = qmin (((g.wireframes.map Wireframe.nodes).flatten).map f) := by
          rw [List.map_flatten]
  · calc qmax (g.wireframes.map fun wf => qmax (wf.nodes.map f))
        = qmax ((g.wireframes.map fun wf => wf.nodes.map f).map qmax) := by
          rw [List.map_map]; rfl
      _ = qmax ((g.wireframes.map fun wf => wf.nodes.map f).flatten) :=
          qmax_flatten _ hls hmem
      _ = qmax (((g.wireframes.map Wireframe.nodes).map (List.map f)).flatten) := by
          rw [List.map_map]; rfl
      _ = qmax (((g.wireframes.map Wireframe.nodes).flatten).map f) := by
          rw [List.map_flatten]

/-- C4: on a group whose members each have at least one node, the group
`findCentre` — per axis `0.5 * (min of member minima + max of member
maxima)` — equals the single-buffer `findCentre` of the union of all
members' nodes. -/
theorem c4_group_centre_is_union_centre (g : WireframeGroup)
    (hne : g.wireframes ≠ []) (hnodes : ∀ wf ∈ g.wireframes, wf.nodes ≠ []) :
    g.findCentre =
      Wireframe.findCentre ⟨(g.wireframes.map Wireframe.nodes).flatten, [], []⟩ := by
  obtain ⟨hx1, hx2⟩ := group_axis_reduction g Vec4.x hne hnodes
  obtain ⟨hy1, hy2⟩ := group_axis_reduction g Vec4.y hne hnodes
  obtain ⟨hz1, hz2⟩ := group_axis_reduction g Vec4.z hne hnodes
  unfold WireframeGroup.findCentre Wireframe.findCentre
  dsimp only
  rw [hx1, hx2, hy1, hy2, hz1, hz2]

/-- C4 (witness): the two-member demo group spanning `(0,0,0)-(1,1,1)`
and `(2,2,2)-(3,3,3)` has the union bounding-box centroid, namely
`(3/2, 3/2, 3/2)`. -/
theorem c4_group_centre_is_union_centre_witness :
    gdemo2.wireframes ≠ [] ∧ (∀ wf ∈ gdemo2.wireframes, wf.nodes ≠ []) ∧
    gdemo2.findCentre =
      Wireframe.findCentre ⟨(gdemo2.wireframes.map Wireframe.nodes).flatten, [], []⟩ ∧
    gdemo2.findCentre = (3 / 2, 3 / 2, 3 / 2) := by
  have h1 : gdemo2.wireframes ≠ [] := by decide
  have h2 : ∀ wf ∈ gdemo2.wireframes, wf.nodes ≠ [] := by decide
  refine ⟨h1, h2, c4_group_centre_is_union_centre gdemo2 h1 h2, ?_⟩
  show ((1 : ℚ) / 2 * _, (1 : ℚ) / 2 * _, (1 : ℚ) / 2 * _) = ((3 : ℚ) / 2, (3 : ℚ) / 2, (3 : ℚ) / 2)
  norm_num [gdemo2, Wireframe.addNodes, Wireframe.init, qmin, qmax, min_def, max_def]

/-- C3: with `centre` omitted, the group rotation about each axis uses
the two non-axis coordinates of the group-wide bounding-box centroid as
one shared pivot for every member's per-wireframe rotation, and every
point of the resulting axis-aligned pivot line is a fixed point of the
rotation matrix applied to the members — the members all rotate about
the same line in space, whatever the angle's cosine `c` and sine `s`. -/
theorem c3_group_rotation_shared_pivot (g : WireframeGroup) (c s : ℚ)
    (_hne : g.wireframes ≠ []) (_hnodes : ∀ wf ∈ g.wireframes, wf.nodes ≠ []) :
    ((g.rotateX c s none).wireframes =
        g.wireframes.map (fun wf => wf.rotateX g.findCentre.2.1 g.findCentre.2.2 c s) ∧
      ∀ t : ℚ, mulVecMat ⟨t, g.findCentre.2.1, g.findCentre.2.2, 1⟩
          (Wireframe.rotateXMat g.findCentre.2.1 g.findCentre.2.2 c s) =
        ⟨t, g.findCentre.2.1, g.findCentre.2.2, 1⟩) ∧
    ((g.rotateY c s none).wireframes =
        g.wireframes.map (fun wf => wf.rotateY g.findCentre.1 g.findCentre.2.2 c s) ∧
      ∀ t : ℚ, mulVecMat ⟨g.findCentre.1, t, g.findCentre.2.2, 1⟩
          (Wireframe.rotateYMat g.findCentre.1 g.findCentre.2.2 c s) =
        ⟨g.findCentre.1, t, g.findCentre.2.2, 1⟩) ∧
    ((g.rotateZ c s none).wireframes =
        g.wireframes.map (fun wf => wf.rotateZ g.findCentre.1 g.findCentre.2.1 c s) ∧
      ∀ t : ℚ, mulVecMat ⟨g.findCentre.1, g.findCentre.2.1, t, 1⟩
          (Wireframe.rotateZMat g.findCentre.1 g.findCentre.2.1 c s) =
        ⟨g.findCentre.1, g.findCentre.2.1, t, 1⟩) := by
  refine ⟨⟨rfl, ?_⟩, ⟨rfl, ?_⟩, ⟨rfl, ?_⟩⟩ <;> intro t <;>
    · simp only [mulVecMat, Wireframe.rotateXMat, Wireframe.rotateYMat, Wireframe.rotateZMat,
        Vec4.mk.injEq]
      refine ⟨by ring, by ring, by ring, by ring⟩

/-- C3 (witness): instantiates the shared-pivot theorem on the
two-member demo group with `c = 0`, `s = 1`. -/
theorem c3_group_rotation_shared_pivot_witness :
    gdemo2.wireframes ≠ [] ∧ (∀ wf ∈ gdemo2.wireframes, wf.nodes ≠ []) ∧
    (((gdemo2.rotateX 0 1 none).wireframes =
        gdemo2.wireframes.map
          (fun wf => wf.rotateX gdemo2.findCentre.2.1 gdemo2.findCentre.2.2 0 1) ∧
      ∀ t : ℚ, mulVecMat ⟨t, gdemo2.findCentre.2.1, gdemo2.findCentre.2.2, 1⟩
          (Wireframe.rotateXMat gdemo2.findCentre.2.1 gdemo2.findCentre.2.2 0 1) =
        ⟨t, gdemo2.findCentre.2.1, gdemo2.findCentre.2.2, 1⟩) ∧
    (((gdemo2.rotateY 0 1 none).wireframes =
        gdemo2.wireframes.map
          (fun wf => wf.rotateY gdemo2.findCentre.1 gdemo2.findCentre.2.2 0 1) ∧
      ∀ t : ℚ, mulVecMat ⟨gdemo2.findCentre.1, t, gdemo2.findCentre.2.2, 1⟩
          (Wireframe.rotateYMat gdemo2.findCentre.1 gdemo2.findCentre.2.2 0 1) =
        ⟨gdemo2.findCentre.1, t, gdemo2.findCentre.2.2, 1⟩) ∧
    ((gdemo2.rotateZ 0 1 none).wireframes =
        gdemo2.wireframes.map
          (fun wf => wf.rotateZ gdemo2.findCentre.1 gdemo2.findCentre.2.1 0 1) ∧
      ∀ t : ℚ, mulVecMat ⟨gdemo2.findCentre.1, gdemo2.findCentre.2.1, t, 1⟩
          (Wireframe.rotateZMat gdemo2.findCentre.1 gdemo2.findCentre.2.1 0 1) =
        ⟨gdemo2.findCentre.1, gdemo2.findCentre.2.1, t, 1⟩))) :=
  ⟨by decide, by decide,
   c3_group_rotation_shared_pivot gdemo2 0 1 (by decide) (by decide)⟩
